import Mathlib

/-!
Shallow embedding of the exchange-rate extraction engine of the `money`
repository (files `money/money/utils/selenium_utils.py` and
`money/money/spiders/moedas_spider.py`), together with theorems settling the
frozen claims about it.

Modelling conventions:
* Python `float` values are modelled as `Rat` (the extraction only ever
  produces finite decimal values, so rational arithmetic is exact).
* Calendar dates are modelled as `Int` epoch-day ordinals; equality and
  day-distance of dates are then integer equality and `(d1 - d2).natAbs`.
* Browser, page and regex-engine side effects are passed in explicitly: a
  function under test receives the data the Python code would have obtained
  from the driver (match-group strings, parsed date candidates, raised
  exceptions) as arguments, and the Lean definition reproduces the Python
  control flow on that data.
* Wall-clock timing (`execution_time`) and logging calls are not modelled;
  they do not influence any control flow relevant to the claims.
-/

/-- Python substring test `needle in hay`, prefix part: `isPrefixB n h` is
true iff `n` is a prefix of `h`. -/
def isPrefixB : List Char → List Char → Bool
  | [], _ => true
  | _ :: _, [] => false
  | a :: as1, b :: bs1 => a == b && isPrefixB as1 bs1

/-- Python substring test `needle in hay` on character lists. -/
def isInfixB (needle : List Char) : List Char → Bool
  | [] => isPrefixB needle []
  | b :: bs1 => isPrefixB needle (b :: bs1) || isInfixB needle bs1

/-- Python's `needle in hay` for strings. -/
def strInB (needle hay : String) : Bool := isInfixB needle.data hay.data

/-- Model of the `CurrencyPair` dataclass (identical in `selenium_utils.py` and
`moedas_spider.py`). -/
structure CurrencyPair where
  from_currency : String
  to_currency : String
  deriving DecidableEq, Repr

/-- Model of the `ExchangeRate` dataclass. The `execution_time` field (wall-clock seconds)
is not modelled. -/
structure ExchangeRate where
  from_currency : String
  to_currency : String
  rate_value : Rat
  rate_date : Int
  status : String
  deriving DecidableEq, Repr

/-- Outcome of the side-effecting part of `BCBAutomation.get_exchange_rate`
(driver setup, navigation, form interaction and `_extract_result`): either the
`(rate_value, actual_date)` pair returned by `_extract_result`, or an
exception message if anything in the `try` block raised. -/
abbrev FetchOutcome := Except String (Rat × Int)

/-- Model of `BCBAutomation.get_exchange_rate` (selenium_utils.py lines 506-717),
with the browser work abstracted into `fetch`: the status classification and
the construction of the returned `ExchangeRate`, including the
exception-handler record of lines 702-717. -/
def get_exchange_rate (fetch : FetchOutcome) (pair : CurrencyPair)
    (rate_date : Int) : ExchangeRate :=
  match fetch with
  | .ok (rate_value, actual_date) =>
      let status :=
        if 0 < rate_value then
          if actual_date ≠ rate_date then
            "Cotação encontrada não é da data solicitada"
          else
            "Consulta ok"
        else
          "Valor não encontrado"
      { from_currency := pair.from_currency
        to_currency := pair.to_currency
        rate_value := rate_value
        rate_date := actual_date
        status := status }
  | .error e =>
      { from_currency := pair.from_currency
        to_currency := pair.to_currency
        rate_value := 0
        rate_date := rate_date
        status := "Erro: " ++ e }

/-- What one iteration of the pair loop of
`BCBAutomation.extract_all_exchange_rates` observes for a pair:
`ok er` — `get_exchange_rate` returned `er`;
`caught msg` — the call raised and the per-pair `except` caught it;
`abort msg` — an exception was raised at a point the per-pair `try` does not
cover (e.g. the inter-pair `time.sleep`), so it escapes the loop into the
outer `finally`. -/
inductive StepOut where
  | ok (er : ExchangeRate)
  | caught (msg : String)
  | abort (msg : String)
  deriving DecidableEq, Repr

/-- Mutable loop state of `extract_all_exchange_rates`: the `results` list and
the three counters. -/
structure LoopState where
  results : List ExchangeRate
  success : Nat
  warning : Nat
  error : Nat
  deriving DecidableEq, Repr

/-- One iteration of the pair loop (selenium_utils.py lines 879-916): append
the record, classify it into exactly one counter (`warning` iff the rate is
positive and the status contains `"não é da data"`, `success` iff the rate is
positive otherwise, `error` iff the rate is not positive or an exception was
caught), or propagate an uncaught exception. -/
def stepUpdate (rate_date : Int) (pair : CurrencyPair) (st : LoopState)
    (o : StepOut) : Except String LoopState :=
  match o with
  | .ok er =>
      let st1 := { st with results := st.results ++ [er] }
      if 0 < er.rate_value then
        if strInB "não é da data" er.status then
          .ok { st1 with warning := st1.warning + 1 }
        else
          .ok { st1 with success := st1.success + 1 }
      else
        .ok { st1 with error := st1.error + 1 }
  | .caught e =>
      .ok { st with
              error := st.error + 1
              results := st.results ++
                [{ from_currency := pair.from_currency
                   to_currency := pair.to_currency
                   rate_value := 0
                   rate_date := rate_date
                   status := "Erro: " ++ e }] }
  | .abort e => .error e

/-- The pair loop of `extract_all_exchange_rates`. -/
def loopPairs (step : CurrencyPair → StepOut) (rate_date : Int) :
    List CurrencyPair → LoopState → Except String LoopState
  | [], st => .ok st
  | p :: ps, st =>
      match stepUpdate rate_date p st (step p) with
      | .ok st2 => loopPairs step rate_date ps st2
      | .error e => .error e

/-- Model of `BCBAutomation.close_driver` (selenium_utils.py lines 213-221): if a
driver is live, `quit()` is invoked; `self.driver = None` executes only when
`quit()` returns normally, because a raising `quit()` jumps to the `except`
branch, which merely logs — leaving the driver field set.  With no live
driver the method does nothing.  `quitOk` says whether this `quit()` call
returns normally; the result is the new driver field and the number of
`quit()` invocations performed. -/
def close_driver (quitOk : Bool) : Option Nat → Option Nat × Nat
  | none => (none, 0)
  | some s => if quitOk then (none, 1) else (some s, 1)

/-- Result of one `extract_all_exchange_rates` run: the returned value (or the
escaping exception), the driver field after the `finally` block, and
instrumentation counting `close_driver` and `quit()` invocations. -/
structure RunResult where
  outcome : Except String (List ExchangeRate × Nat × Nat × Nat)
  driverAfter : Option Nat
  closeCalls : Nat
  quitCalls : Nat
  deriving Repr

/-- Model of `BCBAutomation.extract_all_exchange_rates` (selenium_utils.py lines
863-927). `step` gives the per-pair outcome (the driver side effects of
`get_exchange_rate` abstracted); `driver` is the driver field at the time the
loop ends, and `quitOk` whether the cleanup `quit()` would return normally.
The `try/finally` of lines 878-927 is embedded by performing `close_driver`
exactly once on both the normal and the exceptional path. -/
def extract_all_exchange_rates (step : CurrencyPair → StepOut)
    (rate_date : Int) (pairs : List CurrencyPair) (driver : Option Nat)
    (quitOk : Bool) : RunResult :=
  match loopPairs step rate_date pairs ⟨[], 0, 0, 0⟩ with
  | .ok st =>
      let c := close_driver quitOk driver
      { outcome := .ok (st.results, st.success, st.warning, st.error)
        driverAfter := c.1
        closeCalls := 1
        quitCalls := c.2 }
  | .error e =>
      let c := close_driver quitOk driver
      { outcome := .error e
        driverAfter := c.1
        closeCalls := 1
        quitCalls := c.2 }

/-- The record the loop body stores for a pair: the `get_exchange_rate` result
in the `ok` case, the zero-rate error record of lines 905-913 in the `caught`
case (the `abort` value is never consulted under a no-abort hypothesis). -/
def pairRecord (step : CurrencyPair → StepOut) (rate_date : Int)
    (p : CurrencyPair) : ExchangeRate :=
  match step p with
  | .ok er => er
  | .caught e =>
      { from_currency := p.from_currency
        to_currency := p.to_currency
        rate_value := 0
        rate_date := rate_date
        status := "Erro: " ++ e }
  | .abort e =>
      { from_currency := p.from_currency
        to_currency := p.to_currency
        rate_value := 0
        rate_date := rate_date
        status := "Erro: " ++ e }

/-- True iff the loop tallies pair `p` in the `error` counter: either the
per-pair `except` fired, or the stored record's rate is not positive. -/
def errTally (step : CurrencyPair → StepOut) (p : CurrencyPair) : Bool :=
  match step p with
  | .ok er => !decide (0 < er.rate_value)
  | .caught _ => true
  | .abort _ => true

/-- A step outcome is an abort. -/
def StepOut.isAbort : StepOut → Bool
  | .abort _ => true
  | _ => false

theorem loopPairs_ok (step : CurrencyPair → StepOut) (rate_date : Int) :
    ∀ (pairs : List CurrencyPair) (st : LoopState),
      (∀ p ∈ pairs, (step p).isAbort = false) →
      ∃ st2, loopPairs step rate_date pairs st = .ok st2 ∧
        st2.results = st.results ++ pairs.map (pairRecord step rate_date) ∧
        st2.success + st2.warning + st2.error =
          st.success + st.warning + st.error + pairs.length ∧
        st2.error = st.error + pairs.countP (errTally step) := by
  intro pairs
  induction pairs with
  | nil =>
      intro st _
      exact ⟨st, rfl, by simp, by simp, by simp⟩
  | cons p ps ih =>
      intro st hab
      have habp : (step p).isAbort = false := hab p (List.mem_cons_self p ps)
      have habs : ∀ q ∈ ps, (step q).isAbort = false :=
        fun q hq => hab q (List.mem_cons_of_mem p hq)
      cases hstep : step p with
      | abort e => rw [hstep] at habp; simp [StepOut.isAbort] at habp
      | ok er =>
          by_cases hpos : 0 < er.rate_value
          · by_cases hwarn : strInB "não é da data" er.status = true
            · obtain ⟨st2, h1, h2, h3, h4⟩ :=
                ih { st with results := st.results ++ [er],
                             warning := st.warning + 1 } habs
              refine ⟨st2, ?_, ?_, ?_, ?_⟩
              · simpa [loopPairs, stepUpdate, hstep, hpos, hwarn] using h1
              · simpa [pairRecord, hstep] using h2
              · simp only [h3, List.length_cons]; omega
              · simp only [h4, List.countP_cons, errTally, hstep, hpos]
                simp
            · obtain ⟨st2, h1, h2, h3, h4⟩ :=
                ih { st with results := st.results ++ [er],
                             success := st.success + 1 } habs
              refine ⟨st2, ?_, ?_, ?_, ?_⟩
              · simpa [loopPairs, stepUpdate, hstep, hpos, hwarn] using h1
              · simpa [pairRecord, hstep] using h2
              · simp only [h3, List.length_cons]; omega
              · simp only [h4, List.countP_cons, errTally, hstep, hpos]
                simp
          · obtain ⟨st2, h1, h2, h3, h4⟩ :=
              ih { st with results := st.results ++ [er],
                           error := st.error + 1 } habs
            refine ⟨st2, ?_, ?_, ?_, ?_⟩
            · simpa [loopPairs, stepUpdate, hstep, hpos] using h1
            · simpa [pairRecord, hstep] using h2
            · simp only [h3, List.length_cons]; omega
            · simp only [h4, List.countP_cons, errTally, hstep, hpos]
              simp; omega
      | caught e =>
          obtain ⟨st2, h1, h2, h3, h4⟩ :=
            ih { st with
                   error := st.error + 1
                   results := st.results ++
                     [{ from_currency := p.from_currency
                        to_currency := p.to_currency
                        rate_value := 0
                        rate_date := rate_date
                        status := "Erro: " ++ e }] } habs
          refine ⟨st2, ?_, ?_, ?_, ?_⟩
          · simpa [loopPairs, stepUpdate, hstep] using h1
          · simpa [pairRecord, hstep] using h2
          · simp only [h3, List.length_cons]; omega
          · simp only [h4, List.countP_cons, errTally, hstep]
            simp; omega

/-- Claim C1: for every input list of N currency pairs,
`extract_all_exchange_rates` returns exactly N `ExchangeRate` records in input
order, the i-th record carrying the i-th pair's currency codes, and a pair
whose processing raises a (caught) exception contributes a zero-rate error
record in its place while the loop continues.  Hypothesis `hok` is the
property (true of `get_exchange_rate` by construction) that a normal per-pair
result carries the pair's codes; `hab` states that no exception strikes
outside the per-pair `try` (otherwise the whole call raises and returns no
list at all). -/
theorem c1_orchestrator_one_record_per_pair
    (step : CurrencyPair → StepOut) (rate_date : Int)
    (pairs : List CurrencyPair) (driver : Option Nat) (quitOk : Bool)
    (hok : ∀ p er, step p = .ok er →
      er.from_currency = p.from_currency ∧ er.to_currency = p.to_currency)
    (hab : ∀ p ∈ pairs, (step p).isAbort = false) :
    ∃ rs s w e,
      (extract_all_exchange_rates step rate_date pairs driver quitOk).outcome =
        .ok (rs, s, w, e) ∧
      rs.length = pairs.length ∧
      (∀ i, i < pairs.length → ∃ p r, pairs[i]? = some p ∧ rs[i]? = some r ∧
        r.from_currency = p.from_currency ∧
        r.to_currency = p.to_currency ∧
        (∀ m, step p = .caught m →
          r = { from_currency := p.from_currency
                to_currency := p.to_currency
                rate_value := 0
                rate_date := rate_date
                status := "Erro: " ++ m })) := by
  obtain ⟨st2, h1, h2, h3, h4⟩ :=
    loopPairs_ok step rate_date pairs ⟨[], 0, 0, 0⟩ hab
  simp only [List.nil_append] at h2
  refine ⟨st2.results, st2.success, st2.warning, st2.error, ?_, ?_, ?_⟩
  · simp [extract_all_exchange_rates, h1]
  · simp [h2]
  · intro i hi
    refine ⟨pairs[i], pairRecord step rate_date pairs[i], ?_, ?_, ?_, ?_, ?_⟩
    · exact List.getElem?_eq_getElem hi
    · rw [h2]
      simp [List.getElem?_eq_getElem hi]
    · cases hstep : step pairs[i] with
      | ok er => simpa [pairRecord, hstep] using (hok _ er hstep).1
      | caught m => simp [pairRecord, hstep]
      | abort m => simp [pairRecord, hstep]
    · cases hstep : step pairs[i] with
      | ok er => simpa [pairRecord, hstep] using (hok _ er hstep).2
      | caught m => simp [pairRecord, hstep]
      | abort m => simp [pairRecord, hstep]
    · intro m hstep
      simp [pairRecord, hstep]

/-- Step function for the C1 witness: the USD pair succeeds, every other pair
raises an exception that the loop catches. -/
def c1StepW : CurrencyPair → StepOut := fun p =>
  if p.from_currency = "USD" then
    .ok { from_currency := p.from_currency
          to_currency := p.to_currency
          rate_value := 5
          rate_date := 0
          status := "Consulta ok" }
  else
    .caught "boom"

def c1PairsW : List CurrencyPair := [⟨"USD", "BRL"⟩, ⟨"EUR", "BRL"⟩]

theorem c1_witness :
    ∃ rs s w e,
      (extract_all_exchange_rates c1StepW 0 c1PairsW none true).outcome =
        .ok (rs, s, w, e) ∧
      rs.length = c1PairsW.length ∧
      (∀ i, i < c1PairsW.length → ∃ p r, c1PairsW[i]? = some p ∧
        rs[i]? = some r ∧
        r.from_currency = p.from_currency ∧
        r.to_currency = p.to_currency ∧
        (∀ m, c1StepW p = .caught m →
          r = { from_currency := p.from_currency
                to_currency := p.to_currency
                rate_value := 0
                rate_date := 0
                status := "Erro: " ++ m })) := by
  refine c1_orchestrator_one_record_per_pair c1StepW 0 c1PairsW none true ?_ ?_
  · intro p er h
    simp only [c1StepW] at h
    split at h
    · cases h
      exact ⟨rfl, rfl⟩
    · cases h
  · intro p hp
    simp only [c1PairsW, List.mem_cons, List.mem_singleton] at hp
    rcases hp with rfl | rfl | h
    · decide
    · decide
    · cases h


/-- Claim C2: the terminal status of a record produced without exception is
determined by the extracted `(rate, date)`: a positive rate with the requested
date gives `"Consulta ok"`; a positive rate with a different date gives the
date-mismatch status while the rate and the extracted date are still recorded;
a zero rate gives `"Valor não encontrado"`. -/
theorem c2_status_classification (pair : CurrencyPair) (rate_date : Int)
    (r : Rat) (d : Int) :
    (0 < r → d = rate_date →
      get_exchange_rate (Except.ok (r, d)) pair rate_date =
        { from_currency := pair.from_currency
          to_currency := pair.to_currency
          rate_value := r
          rate_date := d
          status := "Consulta ok" }) ∧
    (0 < r → d ≠ rate_date →
      get_exchange_rate (Except.ok (r, d)) pair rate_date =
        { from_currency := pair.from_currency
          to_currency := pair.to_currency
          rate_value := r
          rate_date := d
          status := "Cotação encontrada não é da data solicitada" }) ∧
    (r = 0 →
      get_exchange_rate (Except.ok (r, d)) pair rate_date =
        { from_currency := pair.from_currency
          to_currency := pair.to_currency
          rate_value := 0
          rate_date := d
          status := "Valor não encontrado" }) := by
  refine ⟨?_, ?_, ?_⟩
  · intro hr hd
    simp [get_exchange_rate, hr, hd]
  · intro hr hd
    simp [get_exchange_rate, hr, hd]
  · intro hr
    subst hr
    simp [get_exchange_rate]

theorem c2_witness :
    get_exchange_rate (Except.ok ((5 : Rat), (3 : Int))) ⟨"USD", "BRL"⟩ 3 =
      { from_currency := "USD", to_currency := "BRL", rate_value := 5
        rate_date := 3, status := "Consulta ok" } ∧
    get_exchange_rate (Except.ok ((5 : Rat), (4 : Int))) ⟨"USD", "BRL"⟩ 3 =
      { from_currency := "USD", to_currency := "BRL", rate_value := 5
        rate_date := 4
        status := "Cotação encontrada não é da data solicitada" } ∧
    get_exchange_rate (Except.ok ((0 : Rat), (3 : Int))) ⟨"USD", "BRL"⟩ 3 =
      { from_currency := "USD", to_currency := "BRL", rate_value := 0
        rate_date := 3, status := "Valor não encontrado" } :=
  ⟨(c2_status_classification ⟨"USD", "BRL"⟩ 3 5 3).1 (by norm_num) rfl,
   (c2_status_classification ⟨"USD", "BRL"⟩ 3 5 4).2.1 (by norm_num) (by decide),
   (c2_status_classification ⟨"USD", "BRL"⟩ 3 0 3).2.2 rfl⟩

/-- Claim C8 counterexample: release is not unconditionally idempotent.  When
`quit()` raises during `close_driver`, the `except` branch skips
`self.driver = None`, so the driver field stays set; a second `close_driver`
call then re-invokes `quit()` — and, if that second `quit()` returns
normally, clears the field — so the second call neither performs no `quit()`
nor changes nothing, refuting the claim's idempotence part on the
already-dead-session case. -/
theorem c8_counterexample :
    close_driver false (some 1) = (some 1, 1) ∧
    (close_driver false (some 1)).1 ≠ none ∧
    (close_driver false (close_driver false (some 1)).1).2 = 1 ∧
    close_driver true (close_driver false (some 1)).1 = (none, 1) := by
  refine ⟨by decide, by decide, by decide, by decide⟩

/-- Claim C8, amended: after `extract_all_exchange_rates` — whether the pair
loop ended normally or an exception escaped it — the `finally` block invokes
`close_driver` exactly once, performing at most one `quit()` (none when no
session is live); release never raises.  Idempotence is conditional on
`quit()` succeeding: after a successful `quit()` the driver field is cleared
and any further `close_driver` performs no `quit()` and changes nothing, and
likewise a call with no live session is a no-op — but if `quit()` raises, the
driver field is left set and a second `close_driver` re-invokes `quit()`. -/
theorem c8_cleanup_once_and_conditional_idempotence
    (step : CurrencyPair → StepOut) (rate_date : Int)
    (pairs : List CurrencyPair) (driver : Option Nat) (quitOk : Bool) :
    (extract_all_exchange_rates step rate_date pairs driver quitOk).closeCalls
      = 1 ∧
    (extract_all_exchange_rates step rate_date pairs driver quitOk).quitCalls
      ≤ 1 ∧
    (driver = none →
      (extract_all_exchange_rates step rate_date pairs driver
        quitOk).driverAfter = none ∧
      (extract_all_exchange_rates step rate_date pairs driver
        quitOk).quitCalls = 0) ∧
    (quitOk = true →
      (extract_all_exchange_rates step rate_date pairs driver
        quitOk).driverAfter = none ∧
      ∀ b, close_driver b
        (extract_all_exchange_rates step rate_date pairs driver
          quitOk).driverAfter = (none, 0)) ∧
    (∀ b : Bool, close_driver b none = (none, 0)) ∧
    (∀ (b : Bool) (d : Option Nat),
      close_driver b (close_driver true d).1 = ((close_driver true d).1, 0)) ∧
    (∀ sess : Nat, (close_driver false (some sess)).1 = some sess ∧
      ∀ b, (close_driver b (close_driver false (some sess)).1).2 = 1) := by
  refine ⟨?_, ?_, ?_, ?_, ?_, ?_, ?_⟩
  · unfold extract_all_exchange_rates
    cases loopPairs step rate_date pairs ⟨[], 0, 0, 0⟩ <;> rfl
  · unfold extract_all_exchange_rates
    cases loopPairs step rate_date pairs ⟨[], 0, 0, 0⟩ <;>
      cases driver <;> cases quitOk <;> simp [close_driver]
  · intro hd
    subst hd
    unfold extract_all_exchange_rates
    cases loopPairs step rate_date pairs ⟨[], 0, 0, 0⟩ <;>
      simp [close_driver]
  · intro hq
    subst hq
    unfold extract_all_exchange_rates
    cases loopPairs step rate_date pairs ⟨[], 0, 0, 0⟩ <;>
      cases driver <;> simp [close_driver]
  · intro b
    rfl
  · intro b d
    cases d <;> simp [close_driver]
  · intro sess
    refine ⟨by simp [close_driver], ?_⟩
    intro b
    cases b <;> simp [close_driver]

theorem c8_witness :
    (extract_all_exchange_rates (fun _ => StepOut.caught "net down") 0 []
      (some 1) true).driverAfter = none ∧
    ∀ b, close_driver b
      (extract_all_exchange_rates (fun _ => StepOut.caught "net down") 0 []
        (some 1) true).driverAfter = (none, 0) :=
  (c8_cleanup_once_and_conditional_idempotence
    (fun _ => StepOut.caught "net down") 0 [] (some 1) true).2.2.2.1 rfl

/-- Claim C10: with the loop completing normally, every processed pair is
tallied in exactly one of the success/warning/error counters, so their sum is
the number of input pairs; the error counter counts exactly the pairs that
either raised a caught exception or came back with a non-positive rate — a
zero-rate pair without exception lands in the same counter as an
exception pair. -/
theorem c10_counters_partition
    (step : CurrencyPair → StepOut) (rate_date : Int)
    (pairs : List CurrencyPair) (driver : Option Nat) (quitOk : Bool)
    (hab : ∀ p ∈ pairs, (step p).isAbort = false) :
    ∃ rs s w e,
      (extract_all_exchange_rates step rate_date pairs driver quitOk).outcome =
        .ok (rs, s, w, e) ∧
      s + w + e = pairs.length ∧
      e = pairs.countP (errTally step) := by
  obtain ⟨st2, h1, h2, h3, h4⟩ :=
    loopPairs_ok step rate_date pairs ⟨[], 0, 0, 0⟩ hab
  refine ⟨st2.results, st2.success, st2.warning, st2.error, ?_, ?_, ?_⟩
  · simp [extract_all_exchange_rates, h1]
  · simpa using h3
  · simpa using h4

/-- Step function for the C10 witness: the USD pair comes back with rate 0
and no exception, every other pair raises a caught exception; both must land
in the error counter. -/
def c10StepW : CurrencyPair → StepOut := fun p =>
  if p.from_currency = "USD" then
    .ok { from_currency := p.from_currency
          to_currency := p.to_currency
          rate_value := 0
          rate_date := 0
          status := "Valor não encontrado" }
  else
    .caught "net down"

def c10PairsW : List CurrencyPair := [⟨"USD", "BRL"⟩, ⟨"EUR", "BRL"⟩]

theorem c10_witness :
    ∃ rs s w e,
      (extract_all_exchange_rates c10StepW 0 c10PairsW none true).outcome =
        .ok (rs, s, w, e) ∧
      s + w + e = c10PairsW.length ∧
      e = c10PairsW.countP (errTally c10StepW) := by
  refine c10_counters_partition c10StepW 0 c10PairsW none true ?_
  intro p hp
  simp only [c10PairsW, List.mem_cons, List.mem_singleton] at hp
  rcases hp with rfl | rfl | h
  · decide
  · decide
  · cases h

/-- The character for decimal digit `d` (`d` is always below 10 at call
sites; the `% 10` keeps the definition total). -/
def digitChar (d : Nat) : Char := Char.ofNat (48 + d % 10)

theorem char_ofNat_toNat_digit (r : Nat) (hr : r < 10) :
    (Char.ofNat (48 + r)).toNat = 48 + r := by
  interval_cases r <;> decide

theorem digitChar_toNat (d : Nat) : (digitChar d).toNat = 48 + d % 10 :=
  char_ofNat_toNat_digit (d % 10) (Nat.mod_lt d (by norm_num))

theorem digitChar_isDigit (d : Nat) : (digitChar d).isDigit = true := by
  have h : d % 10 < 10 := Nat.mod_lt d (by norm_num)
  unfold digitChar
  generalize hr : d % 10 = r
  rw [hr] at h
  interval_cases r <;> decide

theorem digitChar_ne_dot (d : Nat) : digitChar d ≠ '.' := by
  intro h
  have := congrArg Char.toNat h
  rw [digitChar_toNat] at this
  simp only [show ('.').toNat = 46 from rfl] at this
  omega

theorem digitChar_ne_comma (d : Nat) : digitChar d ≠ ',' := by
  intro h
  have := congrArg Char.toNat h
  rw [digitChar_toNat] at this
  simp only [show (',').toNat = 44 from rfl] at this
  omega

/-- Value of a most-significant-first list of digit characters (what Python's
`float`/`int` computes on a pure digit string). -/
def digitsVal (l : List Char) : Nat :=
  l.foldl (fun a c => 10 * a + (c.toNat - 48)) 0

theorem digitsVal_append_singleton (l : List Char) (c : Char) :
    digitsVal (l ++ [c]) = 10 * digitsVal l + (c.toNat - 48) := by
  simp [digitsVal, List.foldl_append]

/-- Decimal digit characters of `n`, most significant first (empty for 0);
`fuel`-structured so that the definition computes by kernel reduction. -/
def natDigitsAux : Nat → Nat → List Char
  | 0, _ => []
  | fuel + 1, n =>
      if n = 0 then []
      else natDigitsAux fuel (n / 10) ++ [digitChar (n % 10)]

/-- Decimal digit characters of `n`, most significant first (empty for 0). -/
def natDigits (n : Nat) : List Char := natDigitsAux n n

theorem natDigitsAux_val (fuel : Nat) :
    ∀ n, n ≤ fuel → digitsVal (natDigitsAux fuel n) = n := by
  induction fuel with
  | zero =>
      intro n hn
      interval_cases n
      simp [natDigitsAux, digitsVal]
  | succ fuel ih =>
      intro n hn
      by_cases h0 : n = 0
      · simp [natDigitsAux, h0, digitsVal]
      · have hdiv : n / 10 ≤ fuel := by
          have : n / 10 < n := Nat.div_lt_self (Nat.pos_of_ne_zero h0) (by norm_num)
          omega
        simp only [natDigitsAux, h0, if_false]
        rw [digitsVal_append_singleton, ih (n / 10) hdiv, digitChar_toNat]
        omega

theorem natDigits_val (n : Nat) : digitsVal (natDigits n) = n :=
  natDigitsAux_val n n le_rfl

theorem natDigitsAux_mem (fuel : Nat) :
    ∀ n c, c ∈ natDigitsAux fuel n → ∃ d, c = digitChar d := by
  induction fuel with
  | zero => intro n c hc; simp [natDigitsAux] at hc
  | succ fuel ih =>
      intro n c hc
      by_cases h0 : n = 0
      · simp [natDigitsAux, h0] at hc
      · simp only [natDigitsAux, h0, if_false, List.mem_append,
          List.mem_singleton] at hc
        rcases hc with hc | rfl
        · exact ih (n / 10) c hc
        · exact ⟨n % 10, rfl⟩

theorem natDigitsAux_ne_nil (fuel n : Nat) (h0 : n ≠ 0) (hn : n ≤ fuel) :
    natDigitsAux fuel n ≠ [] := by
  cases fuel with
  | zero => omega
  | succ fuel => simp [natDigitsAux, h0]

/-- Python's decimal rendering of a natural number (`str(n)`). -/
def natRepr (n : Nat) : List Char :=
  if n = 0 then ['0'] else natDigits n

theorem natRepr_val (n : Nat) : digitsVal (natRepr n) = n := by
  by_cases h0 : n = 0
  · simp [natRepr, h0, digitsVal]
  · simp [natRepr, h0, natDigits_val]

theorem natRepr_ne_nil (n : Nat) : natRepr n ≠ [] := by
  by_cases h0 : n = 0
  · simp [natRepr, h0]
  · simp only [natRepr, h0, if_false]
    exact natDigitsAux_ne_nil n n h0 le_rfl

theorem natRepr_mem (n : Nat) (c : Char) (hc : c ∈ natRepr n) :
    ∃ d, c = digitChar d := by
  by_cases h0 : n = 0
  · simp [natRepr, h0] at hc
    exact ⟨0, by rw [hc]; decide⟩
  · simp only [natRepr, h0, if_false] at hc
    exact natDigitsAux_mem n n c hc

/-- The last `k` decimal digits of `f`, zero padded to width `k`, most
significant first (rendering of a fractional part of `k` digits). -/
def padDigits : Nat → Nat → List Char
  | 0, _ => []
  | k + 1, f => padDigits k (f / 10) ++ [digitChar (f % 10)]

theorem padDigits_length (k : Nat) : ∀ f, (padDigits k f).length = k := by
  induction k with
  | zero => intro f; simp [padDigits]
  | succ k ih => intro f; simp [padDigits, ih]

theorem padDigits_val (k : Nat) : ∀ f, digitsVal (padDigits k f) = f % 10 ^ k := by
  induction k with
  | zero => intro f; simp [padDigits, digitsVal, Nat.mod_one]
  | succ k ih =>
      intro f
      rw [padDigits, digitsVal_append_singleton, ih (f / 10), digitChar_toNat]
      have h1 : f % 10 ^ (k + 1) = 10 * (f / 10 % 10 ^ k) + f % 10 := by
        rw [pow_succ, mul_comm (10 ^ k) 10, Nat.mod_mul]
        ring
      omega

theorem padDigits_mem (k : Nat) :
    ∀ f c, c ∈ padDigits k f → ∃ d, c = digitChar d := by
  induction k with
  | zero => intro f c hc; simp [padDigits] at hc
  | succ k ih =>
      intro f c hc
      simp only [padDigits, List.mem_append, List.mem_singleton] at hc
      rcases hc with hc | rfl
      · exact ih (f / 10) c hc
      · exact ⟨f % 10, rfl⟩

/-- Thousands grouping on a least-significant-first digit list: insert a `'.'`
separator after every three digits (Brazilian grouping, e.g. `1.234`). -/
def group3rev : List Char → List Char
  | a :: b :: c :: d :: rest => a :: b :: c :: '.' :: group3rev (d :: rest)
  | l => l

/-- Brazilian thousands grouping of a most-significant-first digit list. -/
def groupDigits (l : List Char) : List Char := (group3rev l.reverse).reverse

/-- Python `s.replace(".", "")`. -/
def stripDots (l : List Char) : List Char := l.filter (fun c => !(c == '.'))

/-- Python `s.replace(",", ".")`. -/
def commaToDot (l : List Char) : List Char :=
  l.map (fun c => if c = ',' then '.' else c)

/-- Python `re.sub(r"[^\d.,]", "", s)`. -/
def keepNumChars (l : List Char) : List Char :=
  l.filter (fun c => c.isDigit || c == '.' || c == ',')

/-- Numeric normalization of `BCBAutomation._extract_result`
(selenium_utils.py lines 747-748, 762-763, 810-811):
`value_str.replace(".", "").replace(",", ".")` — all dots stripped, then all
commas turned into dots, unconditionally. -/
def normalizeBCB (s : String) : String := ⟨commaToDot (stripDots s.data)⟩

/-- Numeric normalization of `MoedasSpider._extract_result_advanced`
(moedas_spider.py lines 570-571): `re.sub(r"[^\d.,]", "", match)` followed by
`.replace(",", ".")` — commas turned into dots, dots kept. -/
def normalizeSpider (s : String) : String := ⟨commaToDot (keepNumChars s.data)⟩

theorem stripDots_append (l1 l2 : List Char) :
    stripDots (l1 ++ l2) = stripDots l1 ++ stripDots l2 := by
  simp [stripDots]

theorem stripDots_eq_self (l : List Char) (h : ∀ c ∈ l, c ≠ '.') :
    stripDots l = l := by
  simp only [stripDots, List.filter_eq_self]
  intro a ha
  simp [h a ha]

theorem commaToDot_append (l1 l2 : List Char) :
    commaToDot (l1 ++ l2) = commaToDot l1 ++ commaToDot l2 := by
  simp [commaToDot]

theorem commaToDot_eq_self (l : List Char) (h : ∀ c ∈ l, c ≠ ',') :
    commaToDot l = l := by
  induction l with
  | nil => rfl
  | cons c cs ih =>
      have hc : c ≠ ',' := h c (List.mem_cons_self c cs)
      have hrest : commaToDot cs = cs :=
        ih fun x hx => h x (List.mem_cons_of_mem c hx)
      simp only [commaToDot, List.map_cons, if_neg hc]
      simp only [commaToDot] at hrest
      rw [hrest]

theorem keepNumChars_append (l1 l2 : List Char) :
    keepNumChars (l1 ++ l2) = keepNumChars l1 ++ keepNumChars l2 := by
  simp [keepNumChars]

theorem keepNumChars_eq_self (l : List Char)
    (h : ∀ c ∈ l, c.isDigit = true ∨ c = '.' ∨ c = ',') :
    keepNumChars l = l := by
  induction l with
  | nil => rfl
  | cons c cs ih =>
      have hc := h c (List.mem_cons_self c cs)
      have hcs : ∀ x ∈ cs, x.isDigit = true ∨ x = '.' ∨ x = ',' :=
        fun x hx => h x (List.mem_cons_of_mem c hx)
      have hcond : (c.isDigit || c == '.' || c == ',') = true := by
        rcases hc with hd | rfl | rfl
        · simp [hd]
        · simp
        · simp
      have hrest : keepNumChars cs = cs := ih hcs
      simp only [keepNumChars, List.filter_cons, hcond, if_pos]
      simp only [keepNumChars] at hrest
      rw [hrest]

theorem group3rev_stripDots (l : List Char) :
    stripDots (group3rev l) = stripDots l := by
  induction l using group3rev.induct with
  | case1 a b c d rest ih =>
      simp only [group3rev, stripDots, List.filter_cons] at ih ⊢
      simp [ih]
  | case2 l hne =>
      have heq : group3rev l = l := by
        cases l with
        | nil => rfl
        | cons a t =>
            cases t with
            | nil => rfl
            | cons b t2 =>
                cases t2 with
                | nil => rfl
                | cons c t3 =>
                    cases t3 with
                    | nil => rfl
                    | cons d rest => exact absurd rfl (hne a b c d rest)
      rw [heq]

theorem groupDigits_stripDots (l : List Char) (h : ∀ c ∈ l, c ≠ '.') :
    stripDots (groupDigits l) = l := by
  unfold groupDigits
  have h1 : stripDots ((group3rev l.reverse).reverse) =
      (stripDots (group3rev l.reverse)).reverse := by
    simp [stripDots, List.filter_reverse]
  rw [h1, group3rev_stripDots]
  have h2 : stripDots l.reverse = (stripDots l).reverse := by
    simp [stripDots, List.filter_reverse]
  rw [h2, List.reverse_reverse, stripDots_eq_self l h]

/-- Split a character list at every `'.'` (the separator structure Python's
`float` sees in a candidate string). -/
def splitOnDot : List Char → List (List Char)
  | [] => [[]]
  | c :: cs =>
      match splitOnDot cs with
      | [] => [[]]
      | p :: ps => if c = '.' then [] :: p :: ps else (c :: p) :: ps

theorem splitOnDot_ne_nil (l : List Char) : splitOnDot l ≠ [] := by
  cases l with
  | nil => simp [splitOnDot]
  | cons c cs =>
      simp only [splitOnDot]
      cases splitOnDot cs with
      | nil => simp
      | cons p ps =>
          by_cases hc : c = '.' <;> simp [hc]

theorem splitOnDot_nodot (l : List Char) (h : ∀ c ∈ l, c ≠ '.') :
    splitOnDot l = [l] := by
  induction l with
  | nil => rfl
  | cons c cs ih =>
      have hc : c ≠ '.' := h c (List.mem_cons_self c cs)
      have hrest := ih fun x hx => h x (List.mem_cons_of_mem c hx)
      simp [splitOnDot, hrest, hc]

theorem splitOnDot_append_nodot (l1 l2 : List Char) (h : ∀ c ∈ l1, c ≠ '.') :
    ∀ p ps, splitOnDot l2 = p :: ps → splitOnDot (l1 ++ l2) = (l1 ++ p) :: ps := by
  induction l1 with
  | nil => intro p ps h2; simpa using h2
  | cons c cs ih =>
      intro p ps h2
      have hc : c ≠ '.' := h c (List.mem_cons_self c cs)
      have hrest := ih (fun x hx => h x (List.mem_cons_of_mem c hx)) p ps h2
      simp only [List.cons_append, splitOnDot, List.append_eq]
      rw [hrest]
      simp [hc]

theorem splitOnDot_dot_cons (l : List Char) :
    splitOnDot ('.' :: l) = [] :: splitOnDot l := by
  simp only [splitOnDot]
  cases hl : splitOnDot l with
  | nil => exact absurd hl (splitOnDot_ne_nil l)
  | cons p ps => simp

/-- All characters are decimal digits. -/
def allDigitsB (l : List Char) : Bool := l.all Char.isDigit

/-- Python `float()` on the candidate strings the extraction code feeds it:
digit runs separated by dots.  A single digit run parses as an integer; a
single dot with digits on at least one side parses as `intpart.fracpart`
(`float("123.")` and `float(".5")` are legal Python); anything else — in
particular two or more dots, as in `"1.234.56"` — raises `ValueError`,
modelled as `none`.  Signs and exponents never occur in the candidates. -/
def parseDecimal (s : String) : Option Rat :=
  match splitOnDot s.data with
  | [w] =>
      if !w.isEmpty && allDigitsB w then some (digitsVal w : Rat) else none
  | [w, fr] =>
      if (!w.isEmpty || !fr.isEmpty) && allDigitsB w && allDigitsB fr then
        some ((digitsVal w : Rat) + (digitsVal fr : Rat) / (10 : Rat) ^ fr.length)
      else none
  | _ => none

/-- Rendering of the decimal value `i + f / 10^k` in dot-decimal style
(`1234.56`). -/
def renderDot (i f k : Nat) : String := ⟨natRepr i ++ ['.'] ++ padDigits k f⟩

/-- Rendering in plain comma-decimal style (`1234,56`). -/
def renderComma (i f k : Nat) : String := ⟨natRepr i ++ [','] ++ padDigits k f⟩

/-- Rendering in grouped Brazilian style (`1.234,56`). -/
def renderGrouped (i f k : Nat) : String :=
  ⟨groupDigits (natRepr i) ++ [','] ++ padDigits k f⟩

theorem natRepr_no_dot (n : Nat) : ∀ c ∈ natRepr n, c ≠ '.' := by
  intro c hc
  obtain ⟨d, rfl⟩ := natRepr_mem n c hc
  exact digitChar_ne_dot d

theorem natRepr_no_comma (n : Nat) : ∀ c ∈ natRepr n, c ≠ ',' := by
  intro c hc
  obtain ⟨d, rfl⟩ := natRepr_mem n c hc
  exact digitChar_ne_comma d

theorem natRepr_allDigits (n : Nat) : allDigitsB (natRepr n) = true := by
  simp only [allDigitsB, List.all_eq_true]
  intro c hc
  obtain ⟨d, rfl⟩ := natRepr_mem n c hc
  exact digitChar_isDigit d

theorem padDigits_no_dot (k f : Nat) : ∀ c ∈ padDigits k f, c ≠ '.' := by
  intro c hc
  obtain ⟨d, rfl⟩ := padDigits_mem k f c hc
  exact digitChar_ne_dot d

theorem padDigits_no_comma (k f : Nat) : ∀ c ∈ padDigits k f, c ≠ ',' := by
  intro c hc
  obtain ⟨d, rfl⟩ := padDigits_mem k f c hc
  exact digitChar_ne_comma d

theorem padDigits_allDigits (k f : Nat) : allDigitsB (padDigits k f) = true := by
  simp only [allDigitsB, List.all_eq_true]
  intro c hc
  obtain ⟨d, rfl⟩ := padDigits_mem k f c hc
  exact digitChar_isDigit d

theorem isDigit_ne_dot (c : Char) (h : c.isDigit = true) : c ≠ '.' := by
  intro hc
  rw [hc] at h
  exact absurd h (by decide)

theorem isDigit_ne_comma (c : Char) (h : c.isDigit = true) : c ≠ ',' := by
  intro hc
  rw [hc] at h
  exact absurd h (by decide)

theorem parseDecimal_digits_dot (w fr : List Char) (hw : w ≠ [])
    (hwd : allDigitsB w = true) (hfrd : allDigitsB fr = true) :
    parseDecimal ⟨w ++ '.' :: fr⟩ =
      some ((digitsVal w : Rat) +
        (digitsVal fr : Rat) / (10 : Rat) ^ fr.length) := by
  have hwdot : ∀ c ∈ w, c ≠ '.' := by
    intro c hc
    exact isDigit_ne_dot c (by simpa using (List.all_eq_true.mp hwd) c hc)
  have hfr : splitOnDot fr = [fr] := by
    refine splitOnDot_nodot fr ?_
    intro c hc
    exact isDigit_ne_dot c (by simpa using (List.all_eq_true.mp hfrd) c hc)
  have hdotfr : splitOnDot ('.' :: fr) = [] :: [fr] := by
    rw [splitOnDot_dot_cons, hfr]
  have hsplit : splitOnDot (w ++ '.' :: fr) = (w ++ []) :: [fr] :=
    splitOnDot_append_nodot w ('.' :: fr) hwdot [] [fr] hdotfr
  rw [List.append_nil] at hsplit
  simp only [parseDecimal, hsplit]
  have hne : w.isEmpty = false := by
    cases w with
    | nil => exact absurd rfl hw
    | cons a t => rfl
  simp [hne, hwd, hfrd]

theorem parseDecimal_digits (w : List Char) (hw : w ≠ [])
    (hwd : allDigitsB w = true) :
    parseDecimal ⟨w⟩ = some (digitsVal w : Rat) := by
  have hwdot : ∀ c ∈ w, c ≠ '.' := by
    intro c hc
    exact isDigit_ne_dot c (by simpa using (List.all_eq_true.mp hwd) c hc)
  have hsplit : splitOnDot w = [w] := splitOnDot_nodot w hwdot
  simp only [parseDecimal, hsplit]
  have hne : w.isEmpty = false := by
    cases w with
    | nil => exact absurd rfl hw
    | cons a t => rfl
  simp [hne, hwd]

theorem keepNumChars_digits (l : List Char) (h : allDigitsB l = true) :
    keepNumChars l = l := by
  refine keepNumChars_eq_self l ?_
  intro c hc
  exact Or.inl (by simpa using (List.all_eq_true.mp h) c hc)

theorem normalizeBCB_renderGrouped (i f k : Nat) :
    normalizeBCB (renderGrouped i f k) = ⟨natRepr i ++ '.' :: padDigits k f⟩ := by
  unfold normalizeBCB renderGrouped
  congr 1
  show commaToDot (stripDots (groupDigits (natRepr i) ++ [','] ++ padDigits k f))
      = natRepr i ++ '.' :: padDigits k f
  rw [stripDots_append, stripDots_append]
  rw [groupDigits_stripDots (natRepr i) (natRepr_no_dot i)]
  rw [stripDots_eq_self [','] (by intro c hc; simp at hc; subst hc; decide)]
  rw [stripDots_eq_self (padDigits k f) (padDigits_no_dot k f)]
  rw [commaToDot_append, commaToDot_append]
  rw [commaToDot_eq_self (natRepr i) (natRepr_no_comma i)]
  rw [commaToDot_eq_self (padDigits k f) (padDigits_no_comma k f)]
  rw [show commaToDot [','] = ['.'] from rfl]
  simp

theorem normalizeBCB_renderComma (i f k : Nat) :
    normalizeBCB (renderComma i f k) = ⟨natRepr i ++ '.' :: padDigits k f⟩ := by
  unfold normalizeBCB renderComma
  congr 1
  show commaToDot (stripDots (natRepr i ++ [','] ++ padDigits k f))
      = natRepr i ++ '.' :: padDigits k f
  rw [stripDots_append, stripDots_append]
  rw [stripDots_eq_self (natRepr i) (natRepr_no_dot i)]
  rw [stripDots_eq_self [','] (by intro c hc; simp at hc; subst hc; decide)]
  rw [stripDots_eq_self (padDigits k f) (padDigits_no_dot k f)]
  rw [commaToDot_append, commaToDot_append]
  rw [commaToDot_eq_self (natRepr i) (natRepr_no_comma i)]
  rw [commaToDot_eq_self (padDigits k f) (padDigits_no_comma k f)]
  rw [show commaToDot [','] = ['.'] from rfl]
  simp

theorem normalizeSpider_renderDot (i f k : Nat) :
    normalizeSpider (renderDot i f k) = ⟨natRepr i ++ '.' :: padDigits k f⟩ := by
  unfold normalizeSpider renderDot
  congr 1
  show commaToDot (keepNumChars (natRepr i ++ ['.'] ++ padDigits k f))
      = natRepr i ++ '.' :: padDigits k f
  rw [keepNumChars_append, keepNumChars_append]
  rw [keepNumChars_digits (natRepr i) (natRepr_allDigits i)]
  rw [keepNumChars_digits (padDigits k f) (padDigits_allDigits k f)]
  rw [show keepNumChars ['.'] = ['.'] from rfl]
  rw [commaToDot_append, commaToDot_append]
  rw [commaToDot_eq_self (natRepr i) (natRepr_no_comma i)]
  rw [commaToDot_eq_self (padDigits k f) (padDigits_no_comma k f)]
  rw [show commaToDot ['.'] = ['.'] from rfl]
  simp

theorem normalizeSpider_renderComma (i f k : Nat) :
    normalizeSpider (renderComma i f k) = ⟨natRepr i ++ '.' :: padDigits k f⟩ := by
  unfold normalizeSpider renderComma
  congr 1
  show commaToDot (keepNumChars (natRepr i ++ [','] ++ padDigits k f))
      = natRepr i ++ '.' :: padDigits k f
  rw [keepNumChars_append, keepNumChars_append]
  rw [keepNumChars_digits (natRepr i) (natRepr_allDigits i)]
  rw [keepNumChars_digits (padDigits k f) (padDigits_allDigits k f)]
  rw [show keepNumChars [','] = [','] from rfl]
  rw [commaToDot_append, commaToDot_append]
  rw [commaToDot_eq_self (natRepr i) (natRepr_no_comma i)]
  rw [commaToDot_eq_self (padDigits k f) (padDigits_no_comma k f)]
  rw [show commaToDot [','] = ['.'] from rfl]
  simp

theorem parseDecimal_digits_dot_value (i f k : Nat) (hf : f < 10 ^ k) :
    parseDecimal ⟨natRepr i ++ '.' :: padDigits k f⟩ =
      some ((i : Rat) + (f : Rat) / (10 : Rat) ^ k) := by
  rw [parseDecimal_digits_dot (natRepr i) (padDigits k f) (natRepr_ne_nil i)
    (natRepr_allDigits i) (padDigits_allDigits k f)]
  rw [natRepr_val, padDigits_val, padDigits_length, Nat.mod_eq_of_lt hf]

/-- Claim C4 counterexample: the claim's three-style round-trip fails on the
code.  `BCBAutomation`'s normalization (strip all dots, then comma to dot)
turns the dot-decimal rendering `"1234.56"` into `"123456"`, which parses as
123456 and not 1234.56; and the spider's normalization (keep dots, comma to
dot) turns the grouped rendering `"1.234,56"` into `"1.234.56"`, on which
Python's `float` raises `ValueError` (modelled as `none`). -/
theorem c4_counterexample :
    parseDecimal (normalizeBCB (renderDot 1234 56 2)) = some (123456 : Rat) ∧
    (123456 : Rat) ≠ 1234 + 56 / 100 ∧
    parseDecimal (normalizeSpider (renderGrouped 1234 56 2)) = none := by
  refine ⟨by decide, by norm_num, by decide⟩

/-- Claim C4, amended: the two comma-decimal renderings (`1.234,56` and
`1234,56`) round-trip exactly through `BCBAutomation`'s normalization
(strip all dots, then comma to dot), and the dot-decimal and plain-comma
renderings (`1234.56`, `1234,56`) round-trip exactly through the spider's
normalization (drop non-numeric characters, comma to dot, dots kept); the
remaining style/normalization combinations fail as exhibited in the
counterexample.  The decimal value is `i + f/10^k` with `f` the `k`-digit
fractional part. -/
theorem c4_roundtrip_per_variant (i f k : Nat) (hf : f < 10 ^ k) :
    parseDecimal (normalizeBCB (renderGrouped i f k)) =
      some ((i : Rat) + (f : Rat) / (10 : Rat) ^ k) ∧
    parseDecimal (normalizeBCB (renderComma i f k)) =
      some ((i : Rat) + (f : Rat) / (10 : Rat) ^ k) ∧
    parseDecimal (normalizeSpider (renderDot i f k)) =
      some ((i : Rat) + (f : Rat) / (10 : Rat) ^ k) ∧
    parseDecimal (normalizeSpider (renderComma i f k)) =
      some ((i : Rat) + (f : Rat) / (10 : Rat) ^ k) := by
  refine ⟨?_, ?_, ?_, ?_⟩
  · rw [normalizeBCB_renderGrouped, parseDecimal_digits_dot_value i f k hf]
  · rw [normalizeBCB_renderComma, parseDecimal_digits_dot_value i f k hf]
  · rw [normalizeSpider_renderDot, parseDecimal_digits_dot_value i f k hf]
  · rw [normalizeSpider_renderComma, parseDecimal_digits_dot_value i f k hf]

theorem c4_witness :
    parseDecimal (normalizeBCB (renderGrouped 1234 56 2)) =
      some ((1234 : Rat) + (56 : Rat) / (10 : Rat) ^ 2) ∧
    parseDecimal (normalizeBCB (renderComma 1234 56 2)) =
      some ((1234 : Rat) + (56 : Rat) / (10 : Rat) ^ 2) ∧
    parseDecimal (normalizeSpider (renderDot 1234 56 2)) =
      some ((1234 : Rat) + (56 : Rat) / (10 : Rat) ^ 2) ∧
    parseDecimal (normalizeSpider (renderComma 1234 56 2)) =
      some ((1234 : Rat) + (56 : Rat) / (10 : Rat) ^ 2) := by
  have h := c4_roundtrip_per_variant 1234 56 2 (by norm_num)
  exact ⟨by exact_mod_cast h.1, by exact_mod_cast h.2.1,
    by exact_mod_cast h.2.2.1, by exact_mod_cast h.2.2.2⟩

/-- Inner candidate loop of `MoedasSpider._extract_result_advanced`
(moedas_spider.py lines 567-582) for one regex pattern: each match string is
cleaned (`re.sub(r"[^\d.,]", "", ...)` then `,` to `.`) and parsed; a value in
[3, 10] is taken and the loop stops; a value in [0.1, 50] is taken and the
scan continues (a later candidate may overwrite it); parse failures and
out-of-band values are skipped.  `r` is the running `rate_value`. -/
def scanPattern : List String → Rat → Rat
  | [], r => r
  | m :: ms, r =>
      match parseDecimal (normalizeSpider m) with
      | none => scanPattern ms r
      | some v =>
          if 3 ≤ v ∧ v ≤ 10 then v
          else if 1 / 10 ≤ v ∧ v ≤ 50 then scanPattern ms v
          else scanPattern ms r

/-- Outer pattern loop of `_extract_result_advanced` (lines 566-585): patterns
are scanned in order, and the loop stops at the first pattern after which
`rate_value > 0`.  `mss` holds the `re.findall` match lists, one per pattern
(the regex engine itself is abstracted). -/
def scanPatterns : List (List String) → Rat → Rat
  | [], r => r
  | ms :: rest, r =>
      let r2 := scanPattern ms r
      if 0 < r2 then r2 else scanPatterns rest r2

/-- Inner date-candidate loop of `_extract_result_advanced` (lines 595-610):
the first parsed candidate within 7 days of the target date is taken and the
inner loop stops; `actual` is the running `actual_date`.  Candidates are the
already-parsed dates (epoch days); `strptime` failures are skipped by the code
and therefore omitted from the candidate list. -/
def datePatternScan : List Int → Int → Int → Int
  | [], _, actual => actual
  | d :: ds, target, actual =>
      if (d - target).natAbs ≤ 7 then d else datePatternScan ds target actual

/-- Outer date-pattern loop of `_extract_result_advanced` (lines 595-612): the
outer loop stops only when `actual_date != self.target_date` after a pattern;
a pattern whose accepted candidate equals the target does not stop it. -/
def dateScan : List (List Int) → Int → Int → Int
  | [], _, actual => actual
  | p :: ps, target, actual =>
      let a2 := datePatternScan p target actual
      if a2 ≠ target then a2 else dateScan ps target a2

/-- Model of `MoedasSpider._extract_result_advanced` (moedas_spider.py lines 535-627):
rate scan, date scan, then status classification (lines 614-620).  The
`except` arms of lines 624-627 return `(0, target, error-status)` values and
are not modelled; they preserve totality.  The page-wait and regex matching
are abstracted into the per-pattern match lists. -/
def extract_result_advanced (mss : List (List String)) (dps : List (List Int))
    (target : Int) : Rat × Int × String :=
  let rate_value := scanPatterns mss 0
  let actual_date := dateScan dps target target
  let status :=
    if 0 < rate_value then
      if actual_date ≠ target then "Sucesso com data diferente" else "Sucesso"
    else "Valor não encontrado"
  (rate_value, actual_date, status)

theorem scanPattern_band (ms : List String) :
    ∀ r : Rat, (0 < r → 1 / 10 ≤ r ∧ r ≤ 50) →
      (0 < scanPattern ms r → 1 / 10 ≤ scanPattern ms r ∧ scanPattern ms r ≤ 50) := by
  induction ms with
  | nil => intro r hr; exact hr
  | cons m ms ih =>
      intro r hr
      simp only [scanPattern]
      cases parseDecimal (normalizeSpider m) with
      | none => exact ih r hr
      | some v =>
          dsimp only
          by_cases h1 : 3 ≤ v ∧ v ≤ 10
          · rw [if_pos h1]
            intro _
            constructor
            · linarith [h1.1]
            · linarith [h1.2]
          · by_cases h2 : 1 / 10 ≤ v ∧ v ≤ 50
            · rw [if_neg h1, if_pos h2]
              exact ih v fun _ => h2
            · rw [if_neg h1, if_neg h2]
              exact ih r hr

theorem scanPatterns_band (mss : List (List String)) :
    ∀ r : Rat, (0 < r → 1 / 10 ≤ r ∧ r ≤ 50) →
      (0 < scanPatterns mss r →
        1 / 10 ≤ scanPatterns mss r ∧ scanPatterns mss r ≤ 50) := by
  induction mss with
  | nil => intro r hr; exact hr
  | cons ms rest ih =>
      intro r hr
      simp only [scanPatterns]
      by_cases h2 : 0 < scanPattern ms r
      · rw [if_pos h2]
        intro _
        exact scanPattern_band ms r hr h2
      · rw [if_neg h2]
        exact ih (scanPattern ms r) (scanPattern_band ms r hr)

/-- Whitespace for the `\s*` of the BCB regexes. -/
def isSpaceB (c : Char) : Bool :=
  c == ' ' || c == '\t' || c == '\n' || c == '\r'

/-- The `[\d,.]+` character class of the BCB rate regexes. -/
def takeNumChars (l : List Char) : List Char :=
  l.takeWhile (fun c => c.isDigit || c == '.' || c == ',')

/-- Text following the first occurrence of `marker` in the text, if any. -/
def findMarkerRest (marker : List Char) : List Char → Option (List Char)
  | [] => if isPrefixB marker [] then some [] else none
  | c :: cs =>
      if isPrefixB marker (c :: cs) then some ((c :: cs).drop marker.length)
      else findMarkerRest marker cs

/-- Group 1 of `re.search(r'Resultado da conversão:?\s*([\d,.]+)', text)`
(selenium_utils.py lines 744-745), for texts in which the marker occurs at
most once (as in the BCB result card): the text after the marker, minus an
optional colon and whitespace, truncated to its numeric prefix; no match if
that prefix is empty. -/
def bcbPattern1Group (text : String) : Option String :=
  match findMarkerRest "Resultado da conversão".data text.data with
  | none => none
  | some rest =>
      let rest2 := match rest with
        | ':' :: r => r
        | r => r
      let rest3 := rest2.dropWhile isSpaceB
      let g := takeNumChars rest3
      if g.isEmpty then none else some ⟨g⟩

/-- First parse success in one generic result selector's element texts
(selenium_utils.py lines 795-819): the first candidate whose normalized text
parses replaces the running rate and stops that selector's element loop. -/
def bcbFirstParse : List String → Rat → Rat
  | [], r => r
  | t :: ts, r =>
      match parseDecimal (normalizeBCB t) with
      | some v => v
      | none => bcbFirstParse ts r

/-- The generic selector loop of `_extract_result` (lines 788-822): every
selector is visited (there is no break at the selector level), each taking
its first parseable candidate. -/
def bcbSelectorScan : List (List String) → Rat → Rat
  | [], r => r
  | sel :: sels, r => bcbSelectorScan sels (bcbFirstParse sel r)

/-- Rate extraction of `BCBAutomation._extract_result` (lines 742-822):
pattern 1 (`Resultado da conversão`), then pattern 2 (`1 X = Y`) if the rate
is still 0, then the generic selectors if the rate is still 0.  `p1`/`p2` are
the regex groups (regex engine abstracted), `gens` the selector element
candidates.  No plausibility band is applied anywhere. -/
def bcbRateValue (p1 p2 : Option String) (gens : List (List String)) : Rat :=
  let r1 : Rat :=
    match p1 with
    | some g => (parseDecimal (normalizeBCB g)).getD 0
    | none => 0
  let r2 : Rat :=
    if r1 = 0 then
      match p2 with
      | some g => (parseDecimal (normalizeBCB g)).getD 0
      | none => 0
    else r1
  if r2 = 0 then bcbSelectorScan gens r2 else r2

/-- The date-fallback selector loop of `_extract_result` (lines 825-853):
every selector is visited, each replacing the running date with its first
parsed candidate (the selector loop has no break or guard). -/
def bcbDateFallback : List (List Int) → Int → Int
  | [], actual => actual
  | s :: ss, actual =>
      bcbDateFallback ss
        (match s.head? with
         | some d => d
         | none => actual)

/-- Model of `BCBAutomation._extract_result` (selenium_utils.py lines 719-861): the
returned `(rate_value, actual_date)`.  The default date is `date.today()`
(line 724) — not the requested date, which this method never receives; the
`Data cotação utilizada` pattern overrides it, and the fallback selectors run
whenever the current date still equals today (line 825). -/
def extract_result (p1 p2 : Option String) (gens : List (List String))
    (dMain : Option Int) (dSels : List (List Int)) (today : Int) :
    Rat × Int :=
  let rate_value := bcbRateValue p1 p2 gens
  let d1 :=
    match dMain with
    | some d => d
    | none => today
  let actual_date := if d1 = today then bcbDateFallback dSels d1 else d1
  (rate_value, actual_date)

theorem bcbRateValue_pattern1 (g : String) (v : Rat) (hv : v ≠ 0)
    (hp : parseDecimal (normalizeBCB g) = some v) (p2 : Option String)
    (gens : List (List String)) :
    bcbRateValue (some g) p2 gens = v := by
  simp only [bcbRateValue, hp, Option.getD_some]
  rw [if_neg hv, if_neg hv]

theorem parseDecimal_bcb_counterexample_value :
    parseDecimal (normalizeBCB "10.000,5") = some ((10000 : Rat) + 5 / 10) := by
  have hn : normalizeBCB "10.000,5" = "10000.5" := by decide
  have hs : "10000.5" = (⟨("10000").data ++ '.' :: ("5").data⟩ : String) := by
    decide
  rw [hn, hs, parseDecimal_digits_dot ("10000").data ("5").data (by decide)
    (by decide) (by decide)]
  norm_num [show digitsVal ("10000").data = 10000 from by decide,
    show digitsVal ("5").data = 5 from by decide,
    show ("5").data.length = 1 from rfl]

/-- Claim C5 counterexample: on the page text
`"Resultado da conversão: 10.000,5"` the BCB extraction's pattern 1 matches
the group `"10.000,5"`, normalizes it to 10000.5 and reports it as the found
rate — a positive value far outside every plausibility band appearing in the
repository ([3, 10], [0.1, 50]) and outside the spec's example band
0.01–1000.  No band check exists in `_extract_result`, refuting the claim for
this extraction path. -/
theorem c5_counterexample :
    bcbPattern1Group "Resultado da conversão: 10.000,5" = some "10.000,5" ∧
    bcbRateValue (bcbPattern1Group "Resultado da conversão: 10.000,5") none [] =
      10000 + 5 / 10 ∧
    (0 : Rat) < 10000 + 5 / 10 ∧
    ¬ ((1 / 10 : Rat) ≤ 10000 + 5 / 10 ∧ (10000 + 5 / 10 : Rat) ≤ 50) ∧
    ¬ ((10000 + 5 / 10 : Rat) ≤ 1000) := by
  have hg : bcbPattern1Group "Resultado da conversão: 10.000,5" =
      some "10.000,5" := by decide
  refine ⟨hg, ?_, by norm_num, by norm_num, by norm_num⟩
  rw [hg]
  exact bcbRateValue_pattern1 "10.000,5" (10000 + 5 / 10) (by norm_num)
    parseDecimal_bcb_counterexample_value none []

/-- Claim C5, amended: the plausibility band exists only in the spider's
extraction: every positive rate `_extract_result_advanced` returns lies in
[0.1, 50] (so a candidate like 10000.5 is rejected there), while
`BCBAutomation._extract_result` applies no band at all and reports any parsed
value (counterexample). -/
theorem c5_spider_band_only (mss : List (List String)) (dps : List (List Int))
    (target : Int) (h : 0 < (extract_result_advanced mss dps target).1) :
    1 / 10 ≤ (extract_result_advanced mss dps target).1 ∧
      (extract_result_advanced mss dps target).1 ≤ 50 := by
  have hband := scanPatterns_band mss 0 (by intro h0; exact absurd h0 (by norm_num))
  exact hband h

theorem parseDecimal_spider_witness_value :
    parseDecimal (normalizeSpider "5,123") = some ((5 : Rat) + 123 / 10 ^ 3) := by
  have hn : normalizeSpider "5,123" = "5.123" := by decide
  have hs : "5.123" = (⟨("5").data ++ '.' :: ("123").data⟩ : String) := by decide
  rw [hn, hs, parseDecimal_digits_dot ("5").data ("123").data (by decide)
    (by decide) (by decide)]
  norm_num [show digitsVal ("5").data = 5 from by decide,
    show digitsVal ("123").data = 123 from by decide,
    show ("123").data.length = 3 from rfl]

theorem spider_witness_rate :
    (extract_result_advanced [["5,123"]] [] 0).1 = 5 + 123 / 10 ^ 3 := by
  show scanPatterns [["5,123"]] 0 = _
  have h1 : scanPattern ["5,123"] 0 = 5 + 123 / 10 ^ 3 := by
    simp only [scanPattern, parseDecimal_spider_witness_value]
    rw [if_pos (by norm_num)]
  simp only [scanPatterns, h1]
  rw [if_pos (by norm_num)]

theorem c5_witness :
    1 / 10 ≤ (extract_result_advanced [["5,123"]] [] 0).1 ∧
      (extract_result_advanced [["5,123"]] [] 0).1 ≤ 50 :=
  c5_spider_band_only [["5,123"]] [] 0 (by rw [spider_witness_rate]; norm_num)

theorem scanPatterns_empty (mss : List (List String))
    (h : ∀ ms ∈ mss, ms = []) : ∀ r : Rat, scanPatterns mss r = r := by
  induction mss with
  | nil => intro r; rfl
  | cons ms rest ih =>
      intro r
      have hms : ms = [] := h ms (List.mem_cons_self ms rest)
      have hrest := ih fun x hx => h x (List.mem_cons_of_mem ms hx)
      subst hms
      simp only [scanPatterns, scanPattern]
      by_cases hr : 0 < r
      · rw [if_pos hr]
      · rw [if_neg hr]
        exact hrest r

theorem dateScan_empty (dps : List (List Int)) (target : Int)
    (h : ∀ p ∈ dps, p = []) : ∀ actual : Int, dateScan dps target actual = actual := by
  induction dps with
  | nil => intro a; rfl
  | cons p ps ih =>
      intro a
      have hp : p = [] := h p (List.mem_cons_self p ps)
      have hrest := ih fun x hx => h x (List.mem_cons_of_mem p hx)
      subst hp
      simp only [dateScan, datePatternScan]
      by_cases ha : a ≠ target
      · rw [if_pos ha]
      · rw [if_neg ha]
        exact hrest a

theorem bcbSelectorScan_empty (sels : List (List String))
    (h : ∀ s ∈ sels, s = []) : ∀ r : Rat, bcbSelectorScan sels r = r := by
  induction sels with
  | nil => intro r; rfl
  | cons s ss ih =>
      intro r
      have hs : s = [] := h s (List.mem_cons_self s ss)
      have hrest := ih fun x hx => h x (List.mem_cons_of_mem s hx)
      subst hs
      simp only [bcbSelectorScan, bcbFirstParse]
      exact hrest r

theorem bcbDateFallback_empty (sels : List (List Int))
    (h : ∀ s ∈ sels, s = []) : ∀ a : Int, bcbDateFallback sels a = a := by
  induction sels with
  | nil => intro a; rfl
  | cons s ss ih =>
      intro a
      have hs : s = [] := h s (List.mem_cons_self s ss)
      have hrest := ih fun x hx => h x (List.mem_cons_of_mem s hx)
      subst hs
      simp only [bcbDateFallback, List.head?]
      exact hrest a

/-- Claim C6 counterexample: the BCB extractor's no-match sentinel date is the
current date (`date.today()`, line 724), not the requested date.  With no
pattern matching anything and today = 100, a query whose requested date is 90
records `rate_date = 100`: the claim's asserted sentinel (the requested date,
90) is wrong for this extractor. -/
theorem c6_counterexample :
    extract_result none none [] none [] 100 = (0, 100) ∧
    (get_exchange_rate
        (Except.ok (extract_result none none [] none [] 100))
        ⟨"USD", "BRL"⟩ 90).rate_date = 100 ∧
    (get_exchange_rate
        (Except.ok (extract_result none none [] none [] 100))
        ⟨"USD", "BRL"⟩ 90).status = "Valor não encontrado" ∧
    (100 : Int) ≠ 90 := by
  have h : extract_result none none [] none [] 100 = ((0 : Rat), (100 : Int)) := by
    simp [extract_result, bcbRateValue, bcbSelectorScan, bcbDateFallback]
  refine ⟨h, ?_, ?_, by decide⟩
  · rw [h]
    simp [get_exchange_rate]
  · rw [h]
    simp [get_exchange_rate]

/-- Claim C6, amended: both extraction variants are total and return the
sentinel rate 0.0 when no pattern matches anything, but the accompanying
sentinel date differs: the spider's `_extract_result_advanced` keeps the
requested (target) date, while `BCBAutomation._extract_result` falls back to
the current date (today), which agrees with the requested date only when the
requested date is today. -/
theorem c6_total_with_sentinels
    (mss : List (List String)) (dps : List (List Int)) (target : Int)
    (gens : List (List String)) (dsels : List (List Int)) (today : Int)
    (h1 : ∀ ms ∈ mss, ms = []) (h2 : ∀ p ∈ dps, p = [])
    (h3 : ∀ g ∈ gens, g = []) (h4 : ∀ s ∈ dsels, s = []) :
    extract_result_advanced mss dps target =
      (0, target, "Valor não encontrado") ∧
    extract_result none none gens none dsels today = (0, today) := by
  constructor
  · have hr : scanPatterns mss 0 = 0 := scanPatterns_empty mss h1 0
    have hd : dateScan dps target target = target := dateScan_empty dps target h2 target
    simp only [extract_result_advanced, hr, hd]
    rw [if_neg (by norm_num : ¬ (0 : Rat) < 0)]
  · have hg : bcbSelectorScan gens 0 = 0 := bcbSelectorScan_empty gens h3 0
    have hd : bcbDateFallback dsels today = today := bcbDateFallback_empty dsels h4 today
    simp [extract_result, bcbRateValue, hg, hd]

theorem c6_witness :
    extract_result_advanced [[], []] [[]] 5 = (0, 5, "Valor não encontrado") ∧
    extract_result none none [[]] none [[], []] 7 = (0, 7) :=
  c6_total_with_sentinels [[], []] [[]] 5 [[]] [[], []] 7
    (by decide) (by decide) (by decide) (by decide)

/-- Specification-side reading of the date scan: the first candidate of one
pattern lying within the 7-day window. -/
def innerFirstAccept (target : Int) : List Int → Option Int
  | [] => none
  | d :: ds => if (d - target).natAbs ≤ 7 then some d else innerFirstAccept target ds

/-- Specification-side reading of the full date scan: the first
pattern-accepted candidate that differs from the target. -/
def firstDiffAccept (target : Int) : List (List Int) → Option Int
  | [] => none
  | p :: ps =>
      match innerFirstAccept target p with
      | some d => if d ≠ target then some d else firstDiffAccept target ps
      | none => firstDiffAccept target ps

theorem datePatternScan_eq (target : Int) (p : List Int) (actual : Int) :
    datePatternScan p target actual = (innerFirstAccept target p).getD actual := by
  induction p with
  | nil => rfl
  | cons d ds ih =>
      simp only [datePatternScan, innerFirstAccept]
      by_cases h : (d - target).natAbs ≤ 7
      · rw [if_pos h, if_pos h]
        rfl
      · rw [if_neg h, if_neg h]
        exact ih

theorem innerFirstAccept_mem (target : Int) (p : List Int) (d : Int)
    (h : innerFirstAccept target p = some d) :
    d ∈ p ∧ (d - target).natAbs ≤ 7 := by
  induction p with
  | nil => simp [innerFirstAccept] at h
  | cons x xs ih =>
      simp only [innerFirstAccept] at h
      by_cases hx : (x - target).natAbs ≤ 7
      · rw [if_pos hx] at h
        simp only [Option.some.injEq] at h
        refine ⟨?_, ?_⟩
        · rw [← h]
          exact List.mem_cons_self x xs
        · rw [← h]
          exact hx
      · rw [if_neg hx] at h
        obtain ⟨hm, hw⟩ := ih h
        exact ⟨List.mem_cons_of_mem x hm, hw⟩

/-- Claim C7 counterexample: with requested date 0 the page offers the
candidates 0 (first pattern) and 3 (second pattern), both within the 7-day
window; the claim says the first in-window candidate (0, the requested date
itself) is accepted, but the code's outer loop only stops once the running
date differs from the requested one, so the returned date is 3. -/
theorem c7_counterexample :
    dateScan [[(0 : Int)], [3]] 0 0 = 3 ∧
    ((0 : Int) - 0).natAbs ≤ 7 ∧
    ((3 : Int) - 0).natAbs ≤ 7 ∧
    dateScan [[(0 : Int)], [3]] 0 0 ≠ 0 := by
  refine ⟨by decide, by decide, by decide, by decide⟩

theorem firstDiffAccept_some_mem (target d : Int) (dps : List (List Int))
    (hfd : firstDiffAccept target dps = some d) :
    ∃ p ∈ dps, innerFirstAccept target p = some d := by
  induction dps with
  | nil => simp [firstDiffAccept] at hfd
  | cons p ps ih =>
      simp only [firstDiffAccept] at hfd
      cases hacc : innerFirstAccept target p with
      | none =>
          simp only [hacc] at hfd
          obtain ⟨q, hq, hq2⟩ := ih hfd
          exact ⟨q, List.mem_cons_of_mem p hq, hq2⟩
      | some x =>
          simp only [hacc] at hfd
          by_cases hx : x ≠ target
          · rw [if_pos hx] at hfd
            cases hfd
            exact ⟨p, List.mem_cons_self p ps, hacc⟩
          · rw [if_neg hx] at hfd
            obtain ⟨q, hq, hq2⟩ := ih hfd
            exact ⟨q, List.mem_cons_of_mem p hq, hq2⟩

theorem firstDiffAccept_none (target : Int) (dps : List (List Int))
    (hall : ∀ p ∈ dps, ∀ d ∈ p, 7 < (d - target).natAbs) :
    firstDiffAccept target dps = none := by
  induction dps with
  | nil => rfl
  | cons p ps ih =>
      have hp : innerFirstAccept target p = none := by
        cases hacc : innerFirstAccept target p with
        | none => rfl
        | some d =>
            obtain ⟨hm, hw⟩ := innerFirstAccept_mem target p d hacc
            have := hall p (List.mem_cons_self p ps) d hm
            omega
      simp only [firstDiffAccept, hp]
      exact ih fun q hq => hall q (List.mem_cons_of_mem p hq)

/-- Claim C7, amended: within each date pattern the first candidate within 7
days of the requested date is accepted, but a pattern whose accepted
candidate equals the requested date does not stop the pattern loop; the
returned date is therefore the first pattern-accepted candidate that differs
from the requested date (hence always either the requested date or an
in-window candidate), and when no candidate lies within the window the
requested date itself is kept. -/
theorem c7_date_scan_characterization (dps : List (List Int)) (target : Int) :
    dateScan dps target target = (firstDiffAccept target dps).getD target ∧
    (dateScan dps target target = target ∨
      (dateScan dps target target - target).natAbs ≤ 7) ∧
    ((∀ p ∈ dps, ∀ d ∈ p, 7 < (d - target).natAbs) →
      dateScan dps target target = target) := by
  have hmain : dateScan dps target target = (firstDiffAccept target dps).getD target := by
    induction dps with
    | nil => rfl
    | cons p ps ih =>
        simp only [dateScan, firstDiffAccept, datePatternScan_eq]
        cases hacc : innerFirstAccept target p with
        | none =>
            simp only [Option.getD_none]
            rw [if_neg (by simp)]
            exact ih
        | some d =>
            simp only [Option.getD_some]
            by_cases hd : d ≠ target
            · rw [if_pos hd, if_pos hd]
              rfl
            · rw [if_neg hd, if_neg hd]
              push_neg at hd
              subst hd
              exact ih
  refine ⟨hmain, ?_, ?_⟩
  · rw [hmain]
    cases hfd : firstDiffAccept target dps with
    | none => exact Or.inl rfl
    | some d =>
        right
        obtain ⟨p, hp, hip⟩ := firstDiffAccept_some_mem target d dps hfd
        simpa using (innerFirstAccept_mem target p d hip).2
  · intro hall
    rw [hmain, firstDiffAccept_none target dps hall]
    rfl

theorem c7_witness :
    dateScan [[(9 : Int)]] 0 0 = 0 :=
  (c7_date_scan_characterization [[(9 : Int)]] 0).2.2 (by decide)

/-- A strategy's `(rate_value, actual_date, status_detail)` triple. -/
abbrev RateResult := Rat × Int × String

/-- The fixed strategy list of `MoedasSpider._get_exchange_rate_hybrid`
(moedas_spider.py lines 286-290); each entry carries the outcome the strategy
would produce for the pair (`Except.error` for a raised exception). -/
def strategyList (s1 s2 s3 : Except String RateResult) :
    List (String × Except String RateResult) :=
  [("Formulário Web", s1), ("Navegação Direta", s2), ("JavaScript Injection", s3)]

/-- The strategy loop of `_get_exchange_rate_hybrid` (lines 292-303): each
strategy is tried in order; a result with `rate_value > 0` is returned at
once; exceptions are caught, logged (with the strategy's name — log only) and
skipped; if no strategy produces a positive rate the generic zero-rate result
`"Erro: Todas as estratégias falharam"` is returned. -/
def hybridLoop : List (String × Except String RateResult) → Int → RateResult
  | [], target => (0, target, "Erro: Todas as estratégias falharam")
  | (_, r) :: rest, target =>
      match r with
      | .ok res => if 0 < res.1 then res else hybridLoop rest target
      | .error _ => hybridLoop rest target

/-- Model of `MoedasSpider._get_exchange_rate_hybrid` (lines 284-303). -/
def get_exchange_rate_hybrid (s1 s2 s3 : Except String RateResult)
    (target : Int) : RateResult :=
  hybridLoop (strategyList s1 s2 s3) target

/-- The API fallback of `MoedasSpider.parse` (lines 250-254): the API is
called iff the hybrid rate is 0.0 and `"Erro"` occurs in the status; its
result replaces the hybrid one iff its rate is positive.  The second
component counts `_get_rate_via_api` invocations. -/
def parse_api_fallback (hyb api : RateResult) : RateResult × Nat :=
  if hyb.1 = 0 ∧ strInB "Erro" hyb.2.2 = true then
    (if 0 < api.1 then api else hyb, 1)
  else (hyb, 0)

/-- A strategy outcome that stops the dispatch loop: a returned triple with
positive rate. -/
def strategyHit : Except String RateResult → Option RateResult
  | .ok r => if 0 < r.1 then some r else none
  | .error _ => none

theorem hybridLoop_cons (name : String) (r : Except String RateResult)
    (rest : List (String × Except String RateResult)) (target : Int) :
    hybridLoop ((name, r) :: rest) target =
      match strategyHit r with
      | some res => res
      | none => hybridLoop rest target := by
  cases r with
  | error e => rfl
  | ok res =>
      simp only [hybridLoop, strategyHit]
      by_cases h : 0 < res.1
      · rw [if_pos h, if_pos h]
      · rw [if_neg h, if_neg h]

/-- Claim C3 counterexample: when the first strategy fails with an exception
(whose message names it, `"Strategy 1 failed: ..."`) and the remaining
strategies report zero, the per-pair zero-rate result has the generic status
`"Erro: Todas as estratégias falharam"` — it is not annotated with the
failing strategy's name (neither the dispatch-table name `"Formulário Web"`
nor the exception prefix `"Strategy 1"`), refuting that part of the claim. -/
theorem c3_counterexample :
    get_exchange_rate_hybrid (Except.error "Strategy 1 failed: timeout")
        (Except.ok (0, 0, "Valor não encontrado"))
        (Except.ok (0, 0, "Valor não encontrado")) 0 =
      (0, 0, "Erro: Todas as estratégias falharam") ∧
    strInB "Formulário Web" "Erro: Todas as estratégias falharam" = false ∧
    strInB "Strategy 1" "Erro: Todas as estratégias falharam" = false := by
  refine ⟨?_, by decide, by decide⟩
  unfold get_exchange_rate_hybrid strategyList
  rw [hybridLoop_cons, hybridLoop_cons, hybridLoop_cons]
  have h1 : strategyHit (Except.error "Strategy 1 failed: timeout" :
      Except String RateResult) = none := rfl
  have h2 : strategyHit (Except.ok ((0 : Rat), (0 : Int), "Valor não encontrado")) = none := by
    simp only [strategyHit]
    rw [if_neg (by norm_num)]
  rw [h1, h2]
  rfl

/-- Claim C3, amended: strategies are tried in the fixed order form
submission, direct navigation, script injection, and the first to report
`rate_value > 0` wins; if all three report zero or raise, the hybrid returns
the single zero-rate result with the generic status
`"Erro: Todas as estratégias falharam"` (each failure is caught locally and
only the debug log names the failing strategy), the public-API strategy is
then invoked exactly once — and only in that case — and its result replaces
the hybrid one iff its rate is positive; no exception escapes to the
per-pair caller. -/
theorem c3_dispatch_policy (s1 s2 s3 : Except String RateResult)
    (target : Int) (api : RateResult) :
    (∀ r, strategyHit s1 = some r →
      get_exchange_rate_hybrid s1 s2 s3 target = r) ∧
    (strategyHit s1 = none → ∀ r, strategyHit s2 = some r →
      get_exchange_rate_hybrid s1 s2 s3 target = r) ∧
    (strategyHit s1 = none → strategyHit s2 = none →
      ∀ r, strategyHit s3 = some r →
      get_exchange_rate_hybrid s1 s2 s3 target = r) ∧
    (strategyHit s1 = none → strategyHit s2 = none → strategyHit s3 = none →
      get_exchange_rate_hybrid s1 s2 s3 target =
        (0, target, "Erro: Todas as estratégias falharam")) ∧
    ((parse_api_fallback (get_exchange_rate_hybrid s1 s2 s3 target) api).2 =
      if strategyHit s1 = none ∧ strategyHit s2 = none ∧ strategyHit s3 = none
      then 1 else 0) ∧
    (strategyHit s1 = none → strategyHit s2 = none → strategyHit s3 = none →
      0 < api.1 →
      (parse_api_fallback (get_exchange_rate_hybrid s1 s2 s3 target) api).1 =
        api) := by
  have hexp : ∀ t : Int, get_exchange_rate_hybrid s1 s2 s3 t =
      match strategyHit s1 with
      | some r => r
      | none =>
          match strategyHit s2 with
          | some r => r
          | none =>
              match strategyHit s3 with
              | some r => r
              | none => (0, t, "Erro: Todas as estratégias falharam") := by
    intro t
    unfold get_exchange_rate_hybrid strategyList
    rw [hybridLoop_cons, hybridLoop_cons, hybridLoop_cons]
    rfl
  have hitpos : ∀ (s : Except String RateResult) (r : RateResult),
      strategyHit s = some r → 0 < r.1 := by
    intro s r h
    cases s with
    | error e => simp [strategyHit] at h
    | ok res =>
        simp only [strategyHit] at h
        by_cases hp : 0 < res.1
        · rw [if_pos hp] at h
          simp only [Option.some.injEq] at h
          rw [← h]
          exact hp
        · rw [if_neg hp] at h
          cases h
  refine ⟨?_, ?_, ?_, ?_, ?_, ?_⟩
  · intro r h1
    rw [hexp, h1]
  · intro h1 r h2
    rw [hexp, h1, h2]
  · intro h1 h2 r h3
    rw [hexp, h1, h2, h3]
  · intro h1 h2 h3
    rw [hexp, h1, h2, h3]
  · have herro : strInB "Erro" "Erro: Todas as estratégias falharam" = true := by
      decide
    by_cases h1 : ∃ r, strategyHit s1 = some r
    · obtain ⟨r, hr⟩ := h1
      rw [hexp, hr]
      have hpos := hitpos s1 r hr
      have hno : ¬ (r.1 = 0 ∧ strInB "Erro" r.2.2 = true) := by
        intro hcon
        rw [hcon.1] at hpos
        exact lt_irrefl 0 hpos
      simp only [parse_api_fallback]
      rw [if_neg hno]
      simp
    · have hr1 : strategyHit s1 = none := by
        cases hs : strategyHit s1 with
        | none => rfl
        | some r => exact absurd ⟨r, hs⟩ h1
      by_cases h2 : ∃ r, strategyHit s2 = some r
      · obtain ⟨r, hr⟩ := h2
        rw [hexp, hr1, hr]
        have hpos := hitpos s2 r hr
        have hno : ¬ (r.1 = 0 ∧ strInB "Erro" r.2.2 = true) := by
          intro hcon
          rw [hcon.1] at hpos
          exact lt_irrefl 0 hpos
        simp only [parse_api_fallback]
        rw [if_neg hno]
        simp
      · have hr2 : strategyHit s2 = none := by
          cases hs : strategyHit s2 with
          | none => rfl
          | some r => exact absurd ⟨r, hs⟩ h2
        by_cases h3 : ∃ r, strategyHit s3 = some r
        · obtain ⟨r, hr⟩ := h3
          rw [hexp, hr1, hr2, hr]
          have hpos := hitpos s3 r hr
          have hno : ¬ (r.1 = 0 ∧ strInB "Erro" r.2.2 = true) := by
            intro hcon
            rw [hcon.1] at hpos
            exact lt_irrefl 0 hpos
          simp only [parse_api_fallback]
          rw [if_neg hno]
          simp
        · have hr3 : strategyHit s3 = none := by
            cases hs : strategyHit s3 with
            | none => rfl
            | some r => exact absurd ⟨r, hs⟩ h3
          rw [hexp, hr1, hr2, hr3]
          simp [parse_api_fallback, herro]
  · intro h1 h2 h3 hapi
    have herro : strInB "Erro" "Erro: Todas as estratégias falharam" = true := by
      decide
    rw [hexp, h1, h2, h3]
    simp [parse_api_fallback, herro, hapi]

theorem c3_witness :
    get_exchange_rate_hybrid (Except.error "Strategy 1 failed: x")
        (Except.ok ((5 : Rat), (0 : Int), "Sucesso"))
        (Except.ok ((0 : Rat), (0 : Int), "Valor não encontrado")) 0 =
      ((5 : Rat), (0 : Int), "Sucesso") ∧
    (parse_api_fallback
        (get_exchange_rate_hybrid (Except.error "Strategy 1 failed: x")
          (Except.ok ((5 : Rat), (0 : Int), "Sucesso"))
          (Except.ok ((0 : Rat), (0 : Int), "Valor não encontrado")) 0)
        ((7 : Rat), (0 : Int), "api")).2 = 0 := by
  have h := c3_dispatch_policy (Except.error "Strategy 1 failed: x")
    (Except.ok ((5 : Rat), (0 : Int), "Sucesso"))
    (Except.ok ((0 : Rat), (0 : Int), "Valor não encontrado")) 0
    ((7 : Rat), (0 : Int), "api")
  have hhit : strategyHit (Except.ok ((5 : Rat), (0 : Int), "Sucesso")) =
      some ((5 : Rat), (0 : Int), "Sucesso") := by
    simp only [strategyHit]
    rw [if_pos (by norm_num)]
  refine ⟨h.2.1 rfl _ hhit, ?_⟩
  rw [h.2.2.2.2.1]
  rw [if_neg (by intro hcon; rw [hhit] at hcon; cases hcon.2.1)]

/-- The two kinds of write failure `write_exchange_rates` distinguishes:
`PermissionError` versus any other exception. -/
inductive WriteErr where
  | perm
  | other
  deriving DecidableEq, Repr

/-- How a `write_exchange_rates` call ends: a path was written and returned;
an exception escaped uncaught (a failure inside the `except PermissionError`
handler is not caught by the sibling `except Exception`); or the final
`raise ValueError` fired. -/
inductive SaveOutcome where
  | saved (path : String)
  | uncaughtError (e : WriteErr)
  | fatalValueError
  deriving DecidableEq, Repr

/-- Sequential saves to a list of paths, stopping at the first failure;
returns the outcome and the list of paths actually attempted. -/
def trySaves (fs : String → Except WriteErr Unit) :
    List String → Except WriteErr Unit × List String
  | [] => (.ok (), [])
  | p :: ps =>
      match fs p with
      | .ok _ =>
          let r := trySaves fs ps
          (r.1, p :: r.2)
      | .error e => (.error e, [p])

/-- Model of `BCBAutomation.write_exchange_rates` (selenium_utils.py lines 929-1035),
with the filesystem abstracted into `fs` and the five concrete paths passed
explicitly: the `try` writes the output-directory copy then the main-directory
copy and returns the main path; `except PermissionError` retries both copies
under an alternate filename and returns the alternate main path — a failure
there escapes uncaught; `except Exception` retries once under a
temporary-directory path and returns it — a failure there raises the fatal
`ValueError`.  The second component lists the paths attempted, in order. -/
def write_exchange_rates (fs : String → Except WriteErr Unit)
    (outputPath mainPath altOutputPath altMainPath tempPath : String) :
    SaveOutcome × List String :=
  let t1 := trySaves fs [outputPath, mainPath]
  match t1.1 with
  | .ok _ => (.saved mainPath, t1.2)
  | .error .perm =>
      let t2 := trySaves fs [altOutputPath, altMainPath]
      match t2.1 with
      | .ok _ => (.saved altMainPath, t1.2 ++ t2.2)
      | .error e => (.uncaughtError e, t1.2 ++ t2.2)
  | .error .other =>
      let t3 := trySaves fs [tempPath]
      match t3.1 with
      | .ok _ => (.saved tempPath, t1.2 ++ t3.2)
      | .error _ => (.fatalValueError, t1.2 ++ t3.2)

/-- Filesystem for the C9 counterexample: every write fails with
`PermissionError` except the temporary-directory path, which would succeed. -/
def c9FsW : String → Except WriteErr Unit := fun p =>
  if p = "temp.xlsx" then .ok () else .error .perm

/-- Claim C9 counterexample: with `c9FsW`, the first write and the
alternate-filename retry both fail with `PermissionError`; the second
`PermissionError` is raised inside the first `except` handler, so it escapes
without the temporary-directory retry ever being attempted — even though a
write to the temporary path would have succeeded.  The claim's cascade
(permission failure → alternate name → temporary directory → only then a
fatal error) does not hold on the code. -/
theorem c9_counterexample :
    (write_exchange_rates c9FsW "out.xlsx" "main.xlsx" "alt_out.xlsx"
        "alt_main.xlsx" "temp.xlsx").1 = .uncaughtError .perm ∧
    (write_exchange_rates c9FsW "out.xlsx" "main.xlsx" "alt_out.xlsx"
        "alt_main.xlsx" "temp.xlsx").2 = ["out.xlsx", "alt_out.xlsx"] ∧
    "temp.xlsx" ∉ (write_exchange_rates c9FsW "out.xlsx" "main.xlsx"
        "alt_out.xlsx" "alt_main.xlsx" "temp.xlsx").2 ∧
    c9FsW "temp.xlsx" = .ok () := by
  refine ⟨by decide, by decide, by decide, by rfl⟩

/-- Claim C9, amended: on a `PermissionError` the method retries once under an
alternate filename and returns that path; if the alternate retry fails the
exception escapes and the temporary directory is never attempted.  On any
other write failure it retries once under a temporary-directory path
(skipping the alternate filename) and returns it; only if that retry also
fails does it raise the fatal save error.  On success it returns the path
written. -/
theorem c9_fallback_cascade (fs : String → Except WriteErr Unit)
    (o m ao am tp : String) :
    (fs o = .ok () → fs m = .ok () →
      write_exchange_rates fs o m ao am tp = (.saved m, [o, m])) ∧
    (fs o = .error .perm → fs ao = .ok () → fs am = .ok () →
      write_exchange_rates fs o m ao am tp = (.saved am, [o, ao, am])) ∧
    (∀ e, fs o = .error .perm → fs ao = .error e →
      write_exchange_rates fs o m ao am tp = (.uncaughtError e, [o, ao])) ∧
    (fs o = .error .other → fs tp = .ok () →
      write_exchange_rates fs o m ao am tp = (.saved tp, [o, tp])) ∧
    (∀ e, fs o = .error .other → fs tp = .error e →
      write_exchange_rates fs o m ao am tp = (.fatalValueError, [o, tp])) := by
  refine ⟨?_, ?_, ?_, ?_, ?_⟩
  · intro h1 h2
    simp [write_exchange_rates, trySaves, h1, h2]
  · intro h1 h2 h3
    simp [write_exchange_rates, trySaves, h1, h2, h3]
  · intro e h1 h2
    simp [write_exchange_rates, trySaves, h1, h2]
  · intro h1 h2
    simp [write_exchange_rates, trySaves, h1, h2]
  · intro e h1 h2
    simp [write_exchange_rates, trySaves, h1, h2]

/-- Filesystem for the C9 witness: the output-directory write fails with a
non-permission error, the temporary-directory write succeeds. -/
def c9FsOtherW : String → Except WriteErr Unit := fun p =>
  if p = "out.xlsx" then .error .other else .ok ()

theorem c9_witness :
    write_exchange_rates c9FsOtherW "out.xlsx" "main.xlsx" "alt_out.xlsx"
        "alt_main.xlsx" "temp.xlsx" = (.saved "temp.xlsx", ["out.xlsx", "temp.xlsx"]) :=
  (c9_fallback_cascade c9FsOtherW "out.xlsx" "main.xlsx" "alt_out.xlsx"
    "alt_main.xlsx" "temp.xlsx").2.2.2.1 (by rfl) (by rfl)
